import Mathlib

/-
Verification of the MTChatbot FAQ retrieval engine (chatbot.py).

The development shallowly embeds the program:
* the SQLite tables created by `init_db` become the `DB` structure
  (`topics`, `references_table`);
* the index builder `load_faqs_from_db` becomes a pure function from the
  database rows to the inverted index and the metadata table;
* the query route `chat` becomes a pure function of the index, the metadata,
  the prompt, and the iteration order of the candidate set;
* floats become exact rationals (the scores here are small ratios of set
  cardinalities, where IEEE doubles and rationals order the same way against
  the 0.6 threshold);
* the external linguistic capability (`normalize` + spaCy lemmatization,
  i.e. the composite `tokenize_and_lemmatize`) is a function parameter
  `lem : String → List String`, deterministic per the spec contract;
* Python dict / set iteration orders that the source leaves to the runtime
  are explicit parameters, constrained to enumerate the right elements.
-/

namespace Chatbot

/-- Row of the `topics` table created by `init_db` (chatbot.py:25-31):
`id INTEGER PRIMARY KEY AUTOINCREMENT, topic_name TEXT UNIQUE NOT NULL,
answer TEXT NOT NULL`. -/
structure TopicRow where
  id : Nat
  topic_name : String
  answer : String
deriving DecidableEq

/-- Row of the `references_table` table created by `init_db`
(chatbot.py:32-39): `topic_id INTEGER NOT NULL, reference_question TEXT NOT
NULL` (the surrogate `id` column plays no role in the program and is
omitted). -/
structure ReferenceRow where
  topic_id : Nat
  reference_question : String
deriving DecidableEq

/-- The committed state of the SQLite database `faqs.db`. -/
structure DB where
  topics : List TopicRow
  references_table : List ReferenceRow
deriving DecidableEq

/-- A reference-question identifier: the `(topic_name, idx)` pair used as the
key of `faq_metadata` and as the elements of the inverted-index buckets
(chatbot.py:97, 103). -/
abbrev Ident := String × Nat

/-- The per-reference metadata record stored in `faq_metadata`
(chatbot.py:97-101): joined lemma string, lemma set, owning topic's answer. -/
structure RefMeta where
  joined : String
  set : Finset String
  answer : String
deriving DecidableEq

/-- `inverted_index`: a `defaultdict(list)` from lemma to the list of
identifiers containing that lemma, modelled as an association list in key
insertion order. -/
abbrev Index := List (String × List Ident)

/-- `faq_metadata`: a dict from identifier to `RefMeta`, modelled as an
association list in key insertion order. -/
abbrev Metadata := List (Ident × RefMeta)

/-- First-match association-list lookup on the inverted index; the default
`[]` also models the read `inverted_index.get(token, [])` (chatbot.py:148). -/
def bucket : Index → String → List Ident
  | [], _ => []
  | e :: rest, t => if e.1 = t then e.2 else bucket rest t

/-- `inverted_index[token].append(ident)` on a `defaultdict(list)`
(chatbot.py:103): append to the existing bucket, or create a new key at the
end. -/
def bucketAppend : Index → String → Ident → Index
  | [], token, ident => [(token, [ident])]
  | e :: rest, token, ident =>
    if e.1 = token then (e.1, e.2 ++ [ident]) :: rest
    else e :: bucketAppend rest token ident

/-- Dict lookup `faq_metadata[(topic, idx)]` (chatbot.py:156), `none` playing
the role of a `KeyError`. -/
def mdLookup : Metadata → Ident → Option RefMeta
  | [], _ => none
  | e :: rest, c => if e.1 = c then some e.2 else mdLookup rest c

/-- Dict assignment `faq_metadata[(topic_name, idx)] = {...}` (chatbot.py:97):
update in place if the key exists, else insert at the end (Python dict
semantics). -/
def mdInsert : Metadata → Ident → RefMeta → Metadata
  | [], k, v => [(k, v)]
  | e :: rest, k, v => if e.1 = k then (k, v) :: rest else e :: mdInsert rest k v

/-- The keys of the metadata table. -/
def mdKeys (md : Metadata) : List Ident := md.map Prod.fst

/-- The in-memory `faqs` dict built by `load_faqs_from_db`
(chatbot.py:74-89): topic name, then answer, then the ordered reference list. -/
abbrev Faqs := List (String × String × List String)

/-- `faqs[topic_name] = {'references': [], 'answer': answer}` (chatbot.py:81):
Python dict assignment, keeping the position of an existing key. -/
def faqsInsert : Faqs → String → String → Faqs
  | [], name, answer => [(name, answer, [])]
  | e :: rest, name, answer =>
    if e.1 = name then (name, answer, []) :: rest else e :: faqsInsert rest name answer

/-- `faqs[topic_name]['references'].append(ref)` (chatbot.py:89); `none` plays
the role of the `KeyError` Python would raise on an absent key. -/
def faqsAppendRef : Faqs → String → String → Option Faqs
  | [], _, _ => none
  | e :: rest, name, ref =>
    if e.1 = name then some ((e.1, e.2.1, e.2.2 ++ [ref]) :: rest)
    else (faqsAppendRef rest name ref).map (e :: ·)

/-- The reference-loading loop of `load_faqs_from_db` (chatbot.py:84-89): for
every `references_table` row, resolve the owning topic's name
(`SELECT topic_name FROM topics WHERE id = ?`, first matching row) and append
the reference text; `none` models the `TypeError` raised by
`cursor2.fetchone()[0]` when no topic has the given id. -/
def loadRefRows (db : DB) (faqs : Faqs) : Option Faqs :=
  db.references_table.foldlM
    (fun acc row =>
      match db.topics.find? (fun t => t.id = row.topic_id) with
      | none => none
      | some t => faqsAppendRef acc t.topic_name row.reference_question)
    faqs

/-- One iteration of the index-building loop (chatbot.py:93-103) for the
reference at position `p.1` with raw text `p.2` under topic `topic_name`.
`lem` is `tokenize_and_lemmatize`; `setIter` gives the iteration order of the
Python set `lemm_set` in `for token in lemm_set` (chatbot.py:102), an order
the runtime does not fix. -/
def processRef (lem : String → List String) (setIter : List String → List String)
    (topic_name answer : String) (st : Index × Metadata) (p : Nat × String) :
    Index × Metadata :=
  let lemm_tokens := lem p.2
  let joined_lemm := " ".intercalate lemm_tokens
  let lemm_set := lemm_tokens.toFinset
  let md := mdInsert st.2 (topic_name, p.1) ⟨joined_lemm, lemm_set, answer⟩
  let ii := (setIter lemm_tokens).foldl
    (fun acc token => bucketAppend acc token (topic_name, p.1)) st.1
  (ii, md)

/-- The index-building pass of `load_faqs_from_db` (chatbot.py:91-103):
iterate the `faqs` dict in insertion order, `enumerate` each topic's
references, and process each one. -/
def buildIndexE (lem : String → List String) (setIter : List String → List String)
    (faqs : Faqs) : Index × Metadata :=
  faqs.foldl
    (fun st e => e.2.2.enum.foldl (fun st2 p => processRef lem setIter e.1 e.2.1 st2 p) st)
    ([], [])

/-- `load_faqs_from_db` (chatbot.py:70-106) with the set-iteration order left
as a parameter: load the topics into `faqs`, attach the references, then build
the inverted index and the metadata table.  The function only executes
`SELECT` statements, so the database itself is read, never written. -/
def load_faqs_from_dbE (lem : String → List String)
    (setIter : List String → List String) (db : DB) : Option (Index × Metadata) :=
  match loadRefRows db (db.topics.foldl (fun acc t => faqsInsert acc t.topic_name t.answer) []) with
  | none => none
  | some faqs => some (buildIndexE lem setIter faqs)

/-- `load_faqs_from_db` with a fixed (first-occurrence) enumeration of each
lemma set, the canonical instance of `load_faqs_from_dbE`. -/
def load_faqs_from_db (lem : String → List String) (db : DB) : Option (Index × Metadata) :=
  load_faqs_from_dbE lem (fun l => l.dedup) db

/-- `jaccard_similarity` (chatbot.py:127-131): `|A ∩ B| / |A ∪ B|`, and `0.0`
when the union is empty.  Floats are modelled by exact rationals. -/
def jaccard_similarity (set1 set2 : Finset String) : ℚ :=
  let intersection : ℕ := (set1 ∩ set2).card
  let union : ℕ := (set1 ∪ set2).card
  if union ≠ 0 then (intersection : ℚ) / (union : ℚ) else 0

/-- `use_jaccard = True` (chatbot.py:153): the deployment-time scoring-mode
flag, fixed to set-overlap mode in the source. -/
def use_jaccard : Bool := true

/-- `threshold = 0.6 if use_jaccard else 0.7` (chatbot.py:166). -/
def threshold : ℚ := if use_jaccard then 0.6 else 0.7

/-- The fixed fallback reply of the `else` branch (chatbot.py:175). -/
def fallbackReply : String :=
  "Δεν καταλαβαίνω την ερώτηση. Παρακαλώ δοκιμάστε ξανά με διαφορετική διατύπωση."

/-- `round(best_score, 3)` (chatbot.py:170), modelled as exact rational
rounding to three decimals. -/
def round3 (q : ℚ) : ℚ := (round (q * 1000) : ℤ) / 1000

/-- Python truthiness of the `best_topic` variable in
`if best_score >= threshold and best_topic:` (chatbot.py:167): `None` and the
empty string are falsy. -/
def truthyStr : Option String → Bool
  | none => false
  | some s => s != ""

/-- The select-best loop state `(best_topic, best_idx, best_score)`
(chatbot.py:150-152). -/
structure Sel where
  best_topic : Option String
  best_idx : Option Nat
  best_score : ℚ
deriving DecidableEq

/-- The loop's initial state `None, None, 0.0`. -/
def initSel : Sel := ⟨none, none, 0⟩

/-- One iteration of the scoring loop (chatbot.py:155-164).  The
sequence-similarity branch calls `difflib.SequenceMatcher`, an external
capability; it is unreachable because `use_jaccard` is the constant `true`,
and is embedded as the constant 0. -/
def selStep (md : Metadata) (prompt_set : Finset String) (s : Sel) (c : Ident) :
    Option Sel :=
  match mdLookup md c with
  | none => none
  | some ref =>
    let score : ℚ := if use_jaccard then jaccard_similarity prompt_set ref.set else 0
    if score > s.best_score then some ⟨some c.1, some c.2, score⟩ else some s

/-- The whole scoring loop `for topic, idx in candidate_refs`
(chatbot.py:155-164), iterating the candidate set in the order `order`. -/
def select_best (md : Metadata) (prompt_set : Finset String) (order : List Ident) :
    Option Sel :=
  order.foldlM (selStep md prompt_set) initSel

/-- The score the loop body computes for candidate `c` (0 on a missing
metadata key, where the loop itself would raise). Derived notion used to state
the selection properties. -/
def candScore (md : Metadata) (prompt_set : Finset String) (c : Ident) : ℚ :=
  match mdLookup md c with
  | none => 0
  | some ref => if use_jaccard then jaccard_similarity prompt_set ref.set else 0

/-- Total version of `selStep`, equal to it whenever the metadata lookup
succeeds. -/
def selStepT (md : Metadata) (prompt_set : Finset String) (s : Sel) (c : Ident) : Sel :=
  if candScore md prompt_set c > s.best_score
  then ⟨some c.1, some c.2, candScore md prompt_set c⟩ else s

/-- The candidate-narrowing step (chatbot.py:146-148): the union of the
inverted-index buckets of the prompt's lemmas, as a duplicate-free list in
first-encounter order (one canonical enumeration of the Python set
`candidate_refs`). -/
def candidate_refs (ii : Index) (lemm_tokens : List String) : List Ident :=
  lemm_tokens.dedup.foldl
    (fun acc t => acc ++ (bucket ii t).filter (fun c => ¬ c ∈ acc)) []

/-- The JSON body produced by the `/chat` route (chatbot.py:168-178). -/
structure ChatResponse where
  reply : String
  probability : ℚ
  lemmatized_tokens : List String
deriving DecidableEq

/-- The `/chat` handler from the prompt onwards (chatbot.py:140-178).  `lem`
is `tokenize_and_lemmatize`; `order` is the iteration order of the Python set
`candidate_refs`, which the runtime leaves unspecified; `none` models the
`KeyError` of a metadata lookup on a candidate absent from `faq_metadata`
(impossible for a pair produced by `load_faqs_from_db`). -/
def chat (lem : String → List String) (ii : Index) (md : Metadata)
    (prompt : String) (order : List Ident) : Option ChatResponse :=
  let lemm_tokens := lem prompt
  let prompt_set := lemm_tokens.toFinset
  let _candidate_refs := candidate_refs ii lemm_tokens
  match select_best md prompt_set order with
  | none => none
  | some s =>
    if threshold ≤ s.best_score ∧ truthyStr s.best_topic = true then
      match s.best_topic, s.best_idx with
      | some best_topic, some best_idx =>
        match mdLookup md (best_topic, best_idx) with
        | some ref => some ⟨ref.answer, round3 s.best_score, lemm_tokens⟩
        | none => none
      | _, _ => none
    else
      some ⟨fallbackReply, 0, lemm_tokens⟩

/-- Whether an identifier occurs in some bucket of the inverted index. -/
def appearsInIndex (ii : Index) (c : Ident) : Bool :=
  ii.any (fun e => decide (c ∈ e.2))

/-- `add_or_update_topic` (chatbot.py:48-67).  The function opens a
connection, executes `INSERT OR REPLACE INTO topics (topic_name, answer)`
and reads the fresh id back — all inside the implicit uncommitted
transaction — and then executes `DELETE FROM references WHERE topic_id = ?`.
The schema created by `init_db` has no table named `references` (the table is
`references_table`), and `REFERENCES` is a reserved SQL keyword, so sqlite3
raises `OperationalError: near "references": syntax error` there.  The
exception propagates before `conn.commit()` is reached, the transaction is
rolled back, and the database visible to every other connection is unchanged:
the call errors with the committed state equal to the input state. -/
def add_or_update_topic (db : DB) (topic_name answer : String)
    (references : List String) : Except String DB :=
  let nextId := db.topics.foldl (fun m t => max m t.id) 0 + 1
  let _uncommitted_topics :=
    db.topics.filter (fun t => ¬ t.topic_name = topic_name) ++
      [⟨nextId, topic_name, answer⟩]
  let _uncommitted_references := references
  Except.error "sqlite3.OperationalError: near references: syntax error"

/-- The JSON body of a `/add_faq` request; `none` fields model keys absent
from `request.json`. -/
structure AddFaqRequest where
  topic : Option String
  answer : Option String
  references : Option (List String)
deriving DecidableEq

/-- Outcome of the `/add_faq` route: the 400 validation response, a Flask 500
from an uncaught exception, or the success response. -/
inductive AddFaqResult
  | badRequest (error : String)
  | serverError (error : String)
  | success (message : String)
deriving DecidableEq

/-- The `/add_faq` handler (chatbot.py:181-197): validate that the `topic`,
`answer` and `references` keys are present, then call `add_or_update_topic`.
An exception from the latter escapes the handler (Flask answers 500) with the
committed database unchanged; on success the handler would rebuild the global
index pair via `load_faqs_from_db` and report success. -/
def add_faq (db : DB) (data : AddFaqRequest) : DB × AddFaqResult :=
  if data.topic = none ∨ data.answer = none ∨ data.references = none then
    (db, .badRequest "Missing required fields: topic, answer, references")
  else
    match data.topic, data.answer, data.references with
    | some topic, some answer, some references =>
      match add_or_update_topic db topic answer references with
      | .error e => (db, .serverError e)
      | .ok db2 => (db2, .success "FAQ added/updated successfully")
    | _, _, _ => (db, .badRequest "Missing required fields: topic, answer, references")

/-- A concrete deterministic instantiation of the external
`tokenize_and_lemmatize` capability, used for the concrete test databases:
whitespace-style tokenization over a fixed vocabulary (`""` has no tokens,
exactly as spaCy produces no token for empty text). -/
def testLemma : String → List String
  | "" => []
  | "a b" => ["a", "b"]
  | "b a" => ["b", "a"]
  | "a c" => ["a", "c"]
  | "a b c d" => ["a", "b", "c", "d"]
  | "a b c e" => ["a", "b", "c", "e"]
  | s => [s]

/-- A database whose single topic has the empty string as its name. -/
def dbEmptyName : DB := ⟨[⟨1, "", "THE-ANSWER"⟩], [⟨1, "a b"⟩]⟩

/-- A database with a reference question that lemmatizes to no tokens. -/
def dbEmptyRef : DB := ⟨[⟨1, "t", "ANS-T"⟩], [⟨1, ""⟩]⟩

/-- A database with two topics whose references have identical lemma sets, so
both score 1.0 against the prompt `"a b"`. -/
def dbTie : DB := ⟨[⟨1, "t1", "ANS-1"⟩, ⟨2, "t2", "ANS-2"⟩], [⟨1, "a b"⟩, ⟨2, "b a"⟩]⟩

/-- A database whose single reference scores exactly 3/5 = 0.6 against the
prompt `"a b c d"`. -/
def dbBoundary : DB := ⟨[⟨1, "t", "ANS-B"⟩], [⟨1, "a b c e"⟩]⟩

/-- The empty database. -/
def emptyDB : DB := ⟨[], []⟩

/-- The invariant tying an inverted index to its metadata table: every
metadata entry is bucketed under each lemma of its set, every bucketed
identifier has a metadata entry, and both key lists are duplicate-free. -/
structure IndexInv (st : Index × Metadata) : Prop where
  md_bucket : ∀ c r, mdLookup st.2 c = some r → ∀ t, t ∈ r.set → c ∈ bucket st.1 t
  bucket_md : ∀ t c, c ∈ bucket st.1 t → ¬ mdLookup st.2 c = none
  keys_nodup : (mdKeys st.2).Nodup
  ikeys_nodup : (st.1.map Prod.fst).Nodup

/-- Two index/metadata pairs agreeing on the metadata and pointwise on all
buckets. -/
def IMRel (st1 st2 : Index × Metadata) : Prop :=
  st1.2 = st2.2 ∧ ∀ t, bucket st1.1 t = bucket st2.1 t

/-- The index/metadata pair built from `dbEmptyName`. -/
def loadEmptyName : Option (Index × Metadata) := load_faqs_from_db testLemma dbEmptyName

def iiEmptyName : Index := (loadEmptyName.getD ([], [])).1

def mdEmptyName : Metadata := (loadEmptyName.getD ([], [])).2

/-- The candidate iteration order used with `dbEmptyName` and prompt `"a b"`. -/
def orderEmptyName : List Ident := [("", 0)]

/-- The index/metadata pair built from `dbTie`. -/
def loadTie : Option (Index × Metadata) := load_faqs_from_db testLemma dbTie

def iiTie : Index := (loadTie.getD ([], [])).1

def mdTie : Metadata := (loadTie.getD ([], [])).2

/-- One enumeration of the candidate set of `dbTie` for the prompt `"a b"`. -/
def orderTie1 : List Ident := [("t1", 0), ("t2", 0)]

/-- The other enumeration of the same candidate set. -/
def orderTie2 : List Ident := [("t2", 0), ("t1", 0)]

/-- The index/metadata pair built from `dbBoundary`. -/
def loadBoundary : Option (Index × Metadata) := load_faqs_from_db testLemma dbBoundary

def iiBoundary : Index := (loadBoundary.getD ([], [])).1

def mdBoundary : Metadata := (loadBoundary.getD ([], [])).2

/-- The candidate iteration order used with `dbBoundary` and prompt
`"a b c d"`. -/
def orderBoundary : List Ident := [("t", 0)]

/-- A `/add_faq` request whose topic name is the empty string. -/
def reqEmptyTopic : AddFaqRequest := ⟨some "", some "an answer", some []⟩

/-! Basic lemmas about the association-list operations. -/

theorem bucket_bucketAppend (ii : Index) (token : String) (ident : Ident) (t : String) :
    bucket (bucketAppend ii token ident) t =
      if t = token then bucket ii t ++ [ident] else bucket ii t := by
  induction ii with
  | nil =>
    by_cases h : t = token
    · subst h; simp [bucketAppend, bucket]
    · have h2 : ¬ token = t := fun hc => h hc.symm
      simp [bucketAppend, bucket, h, h2]
  | cons e rest ih =>
    by_cases h1 : e.1 = token
    · by_cases h : t = token
      · subst h
        simp [bucketAppend, bucket, h1]
      · have h2 : ¬ token = t := fun hc => h hc.symm
        have he : ¬ e.1 = t := by rw [h1]; exact h2
        simp [bucketAppend, bucket, h1, he, h2, h]
    · by_cases he : e.1 = t
      · have h : ¬ t = token := by rw [← he]; exact h1
        simp [bucketAppend, bucket, h1, he, h]
      · simp [bucketAppend, bucket, h1, he, ih]

theorem mem_bucket_foldl (ident : Ident) (x : Ident) (t : String) :
    ∀ (L : List String) (ii : Index),
      x ∈ bucket (L.foldl (fun acc token => bucketAppend acc token ident) ii) t ↔
        x ∈ bucket ii t ∨ (x = ident ∧ t ∈ L) := by
  intro L
  induction L with
  | nil => simp
  | cons a L ih =>
    intro ii
    rw [List.foldl_cons, ih, bucket_bucketAppend]
    by_cases h : t = a
    · subst h
      simp only [eq_self_iff_true, if_true, ite_true, List.mem_append, List.mem_singleton,
        List.mem_cons, true_or, and_true]
      tauto
    · simp only [if_neg h, List.mem_cons]
      tauto

theorem bucket_foldl_eq (ident : Ident) (t : String) :
    ∀ (L : List String), L.Nodup → ∀ (ii : Index),
      bucket (L.foldl (fun acc token => bucketAppend acc token ident) ii) t =
        bucket ii t ++ if t ∈ L then [ident] else [] := by
  intro L
  induction L with
  | nil => intro _ ii; simp
  | cons a L ih =>
    intro hnd ii
    rw [List.foldl_cons, ih (List.nodup_cons.mp hnd).2, bucket_bucketAppend]
    by_cases h : t = a
    · subst h
      have hnotin : t ∉ L := (List.nodup_cons.mp hnd).1
      simp [hnotin]
    · simp [h]

theorem mdLookup_mdInsert (k : Ident) (v : RefMeta) (c : Ident) :
    ∀ (md : Metadata),
      mdLookup (mdInsert md k v) c = if c = k then some v else mdLookup md c := by
  intro md
  induction md with
  | nil =>
    by_cases h : c = k
    · subst h; simp [mdInsert, mdLookup]
    · have h2 : ¬ k = c := fun hc => h hc.symm
      simp [mdInsert, mdLookup, h, h2]
  | cons e rest ih =>
    by_cases h1 : e.1 = k
    · by_cases h2 : c = k
      · subst h2
        simp [mdInsert, mdLookup, h1]
      · have h3 : ¬ k = c := fun hc => h2 hc.symm
        have h4 : ¬ e.1 = c := by rw [h1]; exact h3
        simp [mdInsert, mdLookup, h1, h2, h3, h4]
    · by_cases h2 : e.1 = c
      · have h3 : ¬ c = k := by rw [← h2]; exact h1
        simp [mdInsert, mdLookup, h1, h2, h3]
      · simp [mdInsert, mdLookup, h1, h2, ih]

theorem mdKeys_mdInsert_sub (k : Ident) (v : RefMeta) (x : Ident) :
    ∀ (md : Metadata), x ∈ mdKeys (mdInsert md k v) → x ∈ mdKeys md ∨ x = k := by
  intro md
  induction md with
  | nil => simp [mdInsert, mdKeys]
  | cons e rest ih =>
    by_cases h1 : e.1 = k
    · simp only [mdInsert, if_pos h1, mdKeys, List.map_cons, List.mem_cons]
      rintro (rfl | hx)
      · exact Or.inr rfl
      · exact Or.inl (Or.inr hx)
    · simp only [mdInsert, if_neg h1, mdKeys, List.map_cons, List.mem_cons]
      rintro (rfl | hx)
      · exact Or.inl (Or.inl rfl)
      · rcases ih hx with h | h
        · exact Or.inl (Or.inr h)
        · exact Or.inr h

theorem mdKeys_nodup_mdInsert (k : Ident) (v : RefMeta) :
    ∀ (md : Metadata), (mdKeys md).Nodup → (mdKeys (mdInsert md k v)).Nodup := by
  intro md
  induction md with
  | nil => simp [mdInsert, mdKeys]
  | cons e rest ih =>
    intro hnd
    rw [mdKeys, List.map_cons, List.nodup_cons] at hnd
    by_cases h1 : e.1 = k
    · simp only [mdInsert, if_pos h1, mdKeys, List.map_cons, List.nodup_cons]
      exact ⟨by rw [← h1]; exact hnd.1, hnd.2⟩
    · simp only [mdInsert, if_neg h1, mdKeys, List.map_cons, List.nodup_cons]
      refine ⟨fun hx => ?_, ih hnd.2⟩
      rcases mdKeys_mdInsert_sub k v e.1 rest hx with h | h
      · exact hnd.1 h
      · exact h1 h

theorem mdLookup_eq_none_iff (c : Ident) :
    ∀ (md : Metadata), mdLookup md c = none ↔ ¬ c ∈ mdKeys md := by
  intro md
  induction md with
  | nil => simp [mdLookup, mdKeys]
  | cons e rest ih =>
    by_cases h : e.1 = c
    · simp [mdLookup, mdKeys, h]
    · have h2 : ¬ c = e.1 := fun hc => h hc.symm
      simp [mdLookup, mdKeys, h, h2, ih]

theorem map_fst_bucketAppend (token : String) (ident : Ident) :
    ∀ (ii : Index),
      (bucketAppend ii token ident).map Prod.fst =
        if token ∈ ii.map Prod.fst then ii.map Prod.fst
        else ii.map Prod.fst ++ [token] := by
  intro ii
  induction ii with
  | nil => simp [bucketAppend]
  | cons e rest ih =>
    by_cases h1 : e.1 = token
    · simp [bucketAppend, h1]
    · have h2 : ¬ token = e.1 := fun hc => h1 hc.symm
      by_cases h3 : token ∈ rest.map Prod.fst
      · simp [bucketAppend, h1, h2, h3, ih]
      · simp [bucketAppend, h1, h2, h3, ih]

theorem index_keys_nodup_bucketAppend (token : String) (ident : Ident) (ii : Index)
    (h : (ii.map Prod.fst).Nodup) :
    ((bucketAppend ii token ident).map Prod.fst).Nodup := by
  rw [map_fst_bucketAppend]
  by_cases hm : token ∈ ii.map Prod.fst
  · simpa [hm] using h
  · simp only [if_neg hm]
    rw [List.nodup_append]
    refine ⟨h, List.nodup_singleton token, ?_⟩
    intro a ha hb
    rw [List.mem_singleton] at hb
    subst hb
    exact hm ha

theorem index_keys_nodup_foldl (ident : Ident) :
    ∀ (L : List String) (ii : Index), (ii.map Prod.fst).Nodup →
      (((L.foldl (fun acc token => bucketAppend acc token ident) ii)).map Prod.fst).Nodup := by
  intro L
  induction L with
  | nil => intro ii h; simpa using h
  | cons a L ih =>
    intro ii h
    rw [List.foldl_cons]
    exact ih _ (index_keys_nodup_bucketAppend a ident ii h)

theorem bucket_eq_of_mem :
    ∀ (ii : Index), (ii.map Prod.fst).Nodup → ∀ e, e ∈ ii → bucket ii e.1 = e.2 := by
  intro ii
  induction ii with
  | nil => simp
  | cons f rest ih =>
    intro hnd e he
    rw [List.map_cons, List.nodup_cons] at hnd
    rcases List.mem_cons.mp he with rfl | hmem
    · simp [bucket]
    · have hne : ¬ f.1 = e.1 := fun hc => hnd.1 (hc ▸ List.mem_map_of_mem Prod.fst hmem)
      simp only [bucket, if_neg hne]
      exact ih hnd.2 e hmem

theorem bucket_entry_mem :
    ∀ (ii : Index) (t : String) (c : Ident), c ∈ bucket ii t → (t, bucket ii t) ∈ ii := by
  intro ii
  induction ii with
  | nil => simp [bucket]
  | cons e rest ih =>
    intro t c hc
    by_cases h : e.1 = t
    · simp only [bucket, if_pos h]
      rw [List.mem_cons]
      exact Or.inl (by rw [← h])
    · simp only [bucket, if_neg h] at hc ⊢
      exact List.mem_cons.mpr (Or.inr (ih t c hc))

theorem appearsInIndex_true_iff (ii : Index) (hnd : (ii.map Prod.fst).Nodup) (c : Ident) :
    appearsInIndex ii c = true ↔ ∃ t, c ∈ bucket ii t := by
  constructor
  · intro h
    rcases List.any_eq_true.mp h with ⟨e, he, hc⟩
    exact ⟨e.1, by rw [bucket_eq_of_mem ii hnd e he]; exact of_decide_eq_true hc⟩
  · rintro ⟨t, ht⟩
    exact List.any_eq_true.mpr ⟨(t, bucket ii t), bucket_entry_mem ii t c ht, decide_eq_true ht⟩

theorem appearsInIndex_of_bucket (ii : Index) (t : String) (c : Ident)
    (h : c ∈ bucket ii t) : appearsInIndex ii c = true :=
  List.any_eq_true.mpr ⟨(t, bucket ii t), bucket_entry_mem ii t c h, decide_eq_true h⟩

/-! Jaccard similarity: claim C9. -/

/-- C9 (status: confirmed): for all lemma sets `A` and `B`,
`jaccard_similarity A B` lies in `[0, 1]`; `jaccard_similarity A A = 1` for
every nonempty `A`; and the Jaccard similarity of two empty sets is `0`. -/
theorem jaccard_bounds (A B : Finset String) :
    0 ≤ jaccard_similarity A B ∧ jaccard_similarity A B ≤ 1 ∧
      (A.Nonempty → jaccard_similarity A A = 1) ∧
      jaccard_similarity (∅ : Finset String) (∅ : Finset String) = 0 := by
  refine ⟨?_, ?_, ?_, ?_⟩
  · by_cases h : (A ∪ B).card = 0
    · simp [jaccard_similarity, h]
    · have h1 : (0 : ℚ) ≤ ((A ∩ B).card : ℚ) := by positivity
      have h2 : (0 : ℚ) < ((A ∪ B).card : ℚ) := by
        exact_mod_cast Nat.pos_of_ne_zero h
      simp only [jaccard_similarity, if_pos h]
      exact div_nonneg h1 h2.le
  · by_cases h : (A ∪ B).card = 0
    · simp [jaccard_similarity, h]
    · have hle : (A ∩ B).card ≤ (A ∪ B).card :=
        Finset.card_le_card (Finset.Subset.trans Finset.inter_subset_left Finset.subset_union_left)
      have h2 : (0 : ℚ) < ((A ∪ B).card : ℚ) := by
        exact_mod_cast Nat.pos_of_ne_zero h
      simp only [jaccard_similarity, if_pos h]
      rw [div_le_one h2]
      exact_mod_cast hle
  · intro hA
    have h0 : A.card ≠ 0 := hA.card_pos.ne'
    simp only [jaccard_similarity, Finset.inter_self, Finset.union_self, if_pos h0]
    exact div_self (by exact_mod_cast h0)
  · simp [jaccard_similarity]

/-- C9 witness: the theorem applied at the concrete nonempty set `{"a"}`. -/
theorem jaccard_bounds_witness :
    jaccard_similarity ({"a"} : Finset String) ({"a"} : Finset String) = 1 :=
  (jaccard_bounds {"a"} {"a"}).2.2.1 ⟨"a", Finset.mem_singleton_self "a"⟩

/-! Claim C1: the upsert operation. -/

/-- C1 (status: code_bug): the claim describes the intended upsert semantics
(replace the answer, replace the whole reference set).  The code instead
targets a table named `references` in its `DELETE` and `INSERT` statements,
while `init_db` creates the table as `references_table` (and `REFERENCES` is a
reserved SQL keyword); sqlite3 therefore raises an `OperationalError` on every
call, before `conn.commit()`, so the committed database never changes and no
reference is ever replaced.  This theorem evaluates the embedded code: every
call returns the error and leaves the committed state as it was. -/
theorem add_or_update_topic_always_errors (db : DB) (topic_name answer : String)
    (references : List String) :
    add_or_update_topic db topic_name answer references =
      Except.error "sqlite3.OperationalError: near references: syntax error" := rfl

/-! The build invariant: how `load_faqs_from_db` links index and metadata. -/

/-- Unfolding equation of `processRef`. -/
theorem processRef_eq (lem : String → List String) (setIter : List String → List String)
    (topic_name answer : String) (st : Index × Metadata) (p : Nat × String) :
    processRef lem setIter topic_name answer st p =
      ((setIter (lem p.2)).foldl
        (fun acc token => bucketAppend acc token (topic_name, p.1)) st.1,
       mdInsert st.2 (topic_name, p.1)
        ⟨" ".intercalate (lem p.2), (lem p.2).toFinset, answer⟩) := rfl

theorem processRef_inv (lem : String → List String) (topic_name answer : String)
    (st : Index × Metadata) (p : Nat × String) (h : IndexInv st) :
    IndexInv (processRef lem (fun l => l.dedup) topic_name answer st p) := by
  obtain ⟨h1, h2, h3, h4⟩ := h
  rw [processRef_eq]
  constructor
  · intro c r hc t ht
    rw [mdLookup_mdInsert] at hc
    rw [mem_bucket_foldl]
    by_cases hck : c = (topic_name, p.1)
    · rw [if_pos hck] at hc
      have hr : r = ⟨" ".intercalate (lem p.2), (lem p.2).toFinset, answer⟩ :=
        (Option.some.inj hc).symm
      subst hr
      exact Or.inr ⟨hck, List.mem_dedup.mpr (List.mem_toFinset.mp ht)⟩
    · rw [if_neg hck] at hc
      exact Or.inl (h1 c r hc t ht)
  · intro t c hc
    rw [mem_bucket_foldl] at hc
    rw [mdLookup_mdInsert]
    by_cases hck : c = (topic_name, p.1)
    · rw [if_pos hck]
      simp
    · rw [if_neg hck]
      rcases hc with hold | ⟨hceq, _⟩
      · exact h2 t c hold
      · exact absurd hceq hck
  · exact mdKeys_nodup_mdInsert _ _ _ h3
  · exact index_keys_nodup_foldl _ _ _ h4

theorem foldl_inv {α β : Type} (P : α → Prop) (f : α → β → α)
    (hf : ∀ a b, P a → P (f a b)) :
    ∀ (l : List β) (a : α), P a → P (l.foldl f a) := by
  intro l
  induction l with
  | nil => intro a h; simpa using h
  | cons b l ih =>
    intro a h
    rw [List.foldl_cons]
    exact ih _ (hf a b h)

theorem buildIndex_inv (lem : String → List String) (faqs : Faqs) :
    IndexInv (buildIndexE lem (fun l => l.dedup) faqs) := by
  have base : IndexInv ([], []) := by
    constructor
    · intro c r hc _ _; simp [mdLookup] at hc
    · intro t c hc; simp [bucket] at hc
    · simp [mdKeys]
    · simp
  refine foldl_inv IndexInv _ ?_ faqs ([], []) base
  intro st e hst
  exact foldl_inv IndexInv _
    (fun st2 p h => processRef_inv lem e.1 e.2.1 st2 p h) e.2.2.enum st hst

theorem load_inv (lem : String → List String) (db : DB) (ii : Index) (md : Metadata)
    (h : load_faqs_from_db lem db = some (ii, md)) : IndexInv (ii, md) := by
  unfold load_faqs_from_db load_faqs_from_dbE at h
  cases hcase : loadRefRows db
      (db.topics.foldl (fun acc t => faqsInsert acc t.topic_name t.answer) []) with
  | none => rw [hcase] at h; exact absurd h (by simp)
  | some faqs =>
    rw [hcase] at h
    have h2 : buildIndexE lem (fun l => l.dedup) faqs = (ii, md) := Option.some.inj h
    exact h2 ▸ buildIndex_inv lem faqs

theorem mem_candidate_refs (ii : Index) (lemm_tokens : List String) (c : Ident) :
    c ∈ candidate_refs ii lemm_tokens ↔
      ∃ t, t ∈ lemm_tokens ∧ c ∈ bucket ii t := by
  have main : ∀ (L : List String) (acc : List Ident),
      c ∈ L.foldl (fun acc t => acc ++ (bucket ii t).filter (fun x => ¬ x ∈ acc)) acc ↔
        c ∈ acc ∨ ∃ t, t ∈ L ∧ c ∈ bucket ii t := by
    intro L
    induction L with
    | nil => simp
    | cons a L ih =>
      intro acc
      rw [List.foldl_cons, ih]
      simp only [List.mem_append, List.mem_filter, List.mem_cons, decide_eq_true_eq]
      constructor
      · rintro ((hc | ⟨hb, _⟩) | ⟨t, htL, htb⟩)
        · exact Or.inl hc
        · exact Or.inr ⟨a, Or.inl rfl, hb⟩
        · exact Or.inr ⟨t, Or.inr htL, htb⟩
      · rintro (hc | ⟨t, (rfl | htL), htb⟩)
        · exact Or.inl (Or.inl hc)
        · by_cases hacc : c ∈ acc
          · exact Or.inl (Or.inl hacc)
          · exact Or.inl (Or.inr ⟨htb, hacc⟩)
        · exact Or.inr ⟨t, htL, htb⟩
  rw [candidate_refs, main]
  simp [List.mem_dedup]

theorem jaccard_pos_shared (A B : Finset String) (h : 0 < jaccard_similarity A B) :
    ∃ t, t ∈ A ∧ t ∈ B := by
  simp only [jaccard_similarity] at h
  by_cases hu : (A ∪ B).card = 0
  · simp [hu] at h
  · rw [if_pos hu] at h
    have hi : (A ∩ B).card ≠ 0 := by
      intro h0
      rw [h0] at h
      simp at h
    obtain ⟨t, ht⟩ := Finset.card_pos.mp (Nat.pos_of_ne_zero hi)
    exact ⟨t, Finset.mem_inter.mp ht⟩

theorem nodup_countP_eq_one {α : Type} [DecidableEq α] :
    ∀ (l : List α), l.Nodup → ∀ a ∈ l, l.countP (fun x => decide (x = a)) = 1 := by
  intro l
  induction l with
  | nil => simp
  | cons b l ih =>
    intro hnd a ha
    rw [List.nodup_cons] at hnd
    rw [List.countP_cons]
    rcases List.mem_cons.mp ha with rfl | hmem
    · have hz : l.countP (fun x => decide (x = a)) = 0 := by
        rw [List.countP_eq_zero]
        intro x hx
        simp only [decide_eq_true_eq]
        intro hxa
        exact hnd.1 (hxa ▸ hx)
      simp [hz]
    · have hba : ¬ b = a := fun hc => hnd.1 (hc ▸ hmem)
      simp [ih hnd.2 a hmem, hba]

/-! Claims C4 and C5. -/

/-- C5 (status: confirmed): candidate narrowing is sound.  After a build, any
stored reference whose Jaccard score against the prompt's lemma set is
positive shares a lemma with the prompt and therefore belongs to the union of
the buckets of the prompt's lemmas, i.e. to the scored candidate set. -/
theorem candidate_narrowing_sound (lem : String → List String) (db : DB)
    (ii : Index) (md : Metadata) (lemm_tokens : List String) (c : Ident) (r : RefMeta)
    (hload : load_faqs_from_db lem db = some (ii, md))
    (hc : mdLookup md c = some r)
    (hpos : 0 < jaccard_similarity lemm_tokens.toFinset r.set) :
    c ∈ candidate_refs ii lemm_tokens := by
  obtain ⟨t, htP, htR⟩ := jaccard_pos_shared _ _ hpos
  have hinv := load_inv lem db ii md hload
  exact (mem_candidate_refs ii lemm_tokens c).mpr
    ⟨t, List.mem_toFinset.mp htP, hinv.md_bucket c r hc t htR⟩

/-- C4 (status: corrected): after every build, (a) every identifier occurring
in some inverted-index bucket has exactly one metadata entry, and (b) every
metadata identifier WHOSE LEMMA SET IS NONEMPTY occurs in at least one bucket.
The unqualified converse of the claim is false: a reference that lemmatizes to
no tokens receives a metadata entry but joins no bucket (see the
counterexample). -/
theorem index_metadata_consistency (lem : String → List String) (db : DB)
    (ii : Index) (md : Metadata)
    (hload : load_faqs_from_db lem db = some (ii, md)) :
    (∀ c : Ident, appearsInIndex ii c = true →
      (mdKeys md).countP (fun x => decide (x = c)) = 1) ∧
    (∀ c : Ident, ∀ r : RefMeta, mdLookup md c = some r → r.set.Nonempty →
      appearsInIndex ii c = true) := by
  have hinv := load_inv lem db ii md hload
  constructor
  · intro c hc
    obtain ⟨t, ht⟩ := (appearsInIndex_true_iff ii hinv.ikeys_nodup c).mp hc
    have hl := hinv.bucket_md t c ht
    have hmem : c ∈ mdKeys md := by
      by_contra hn
      exact hl ((mdLookup_eq_none_iff c md).mpr hn)
    exact nodup_countP_eq_one (mdKeys md) hinv.keys_nodup c hmem
  · intro c r hc hne
    obtain ⟨t, ht⟩ := hne
    exact appearsInIndex_of_bucket ii t c (hinv.md_bucket c r hc t ht)

/-! The scoring loop: totality and the first-maximum selection property. -/

theorem selStep_eq (md : Metadata) (ps : Finset String) (s : Sel) (c : Ident)
    (ref : RefMeta) (hm : mdLookup md c = some ref) :
    selStep md ps s c = some (selStepT md ps s c) := by
  simp only [selStep, selStepT, candScore, hm]
  by_cases h : (if use_jaccard then jaccard_similarity ps ref.set else 0) > s.best_score
  · simp [h]
  · simp [h]

theorem select_best_total (md : Metadata) (ps : Finset String) :
    ∀ (order : List Ident), (∀ c ∈ order, ¬ mdLookup md c = none) →
      ∀ (s : Sel),
        List.foldlM (selStep md ps) s order = some (order.foldl (selStepT md ps) s) := by
  intro order
  induction order with
  | nil => intro _ s; rfl
  | cons c l ih =>
    intro h s
    have hc := h c (List.mem_cons_self c l)
    cases hm : mdLookup md c with
    | none => exact absurd hm hc
    | some ref =>
      show selStep md ps s c >>= (fun s2 => List.foldlM (selStep md ps) s2 l) = _
      rw [selStep_eq md ps s c ref hm]
      show List.foldlM (selStep md ps) (selStepT md ps s c) l = _
      rw [ih (fun d hd => h d (List.mem_cons_of_mem c hd)) (selStepT md ps s c),
        List.foldl_cons]

theorem selfold_spec (md : Metadata) (ps : Finset String) :
    ∀ (l : List Ident) (a : Sel),
      a.best_score ≤ (l.foldl (selStepT md ps) a).best_score ∧
      (∀ c ∈ l, candScore md ps c ≤ (l.foldl (selStepT md ps) a).best_score) ∧
      ((l.foldl (selStepT md ps) a) = a ∨
        ∃ i c, l.get? i = some c ∧
          (l.foldl (selStepT md ps) a) = ⟨some c.1, some c.2, candScore md ps c⟩ ∧
          a.best_score < candScore md ps c ∧
          ∀ j d, j < i → l.get? j = some d →
            candScore md ps d < candScore md ps c) := by
  intro l
  induction l with
  | nil => intro a; exact ⟨le_refl _, by simp, Or.inl rfl⟩
  | cons c0 l ih =>
    intro a
    rw [List.foldl_cons]
    obtain ⟨iha, ihb, ihc⟩ := ih (selStepT md ps a c0)
    have hstep : a.best_score ≤ (selStepT md ps a c0).best_score := by
      unfold selStepT
      by_cases h : candScore md ps c0 > a.best_score
      · rw [if_pos h]; exact le_of_lt h
      · rw [if_neg h]
    have hc0 : candScore md ps c0 ≤ (selStepT md ps a c0).best_score := by
      unfold selStepT
      by_cases h : candScore md ps c0 > a.best_score
      · rw [if_pos h]
      · rw [if_neg h]; exact le_of_not_lt h
    refine ⟨le_trans hstep iha, ?_, ?_⟩
    · intro c hc
      rcases List.mem_cons.mp hc with rfl | hmem
      · exact le_trans hc0 iha
      · exact ihb c hmem
    · rcases ihc with heq | ⟨i, c, hget, hres, hlt, hprev⟩
      · rw [heq]
        unfold selStepT
        by_cases h : candScore md ps c0 > a.best_score
        · right
          refine ⟨0, c0, rfl, by rw [if_pos h], h, ?_⟩
          intro j d hj _
          exact absurd hj (Nat.not_lt_zero j)
        · left
          rw [if_neg h]
      · right
        refine ⟨i + 1, c, by simpa using hget, hres, lt_of_le_of_lt hstep hlt, ?_⟩
        intro j d hj hget2
        cases j with
        | zero =>
          have hd : d = c0 := by
            have := hget2
            simp only [List.get?_cons_zero] at this
            exact (Option.some.inj this).symm
          subst hd
          exact lt_of_le_of_lt hc0 hlt
        | succ j2 =>
          refine hprev j2 d (by omega) ?_
          simpa using hget2

theorem select_best_spec (md : Metadata) (ps : Finset String) (order : List Ident) (s : Sel)
    (hall : ∀ c ∈ order, ¬ mdLookup md c = none)
    (hsel : select_best md ps order = some s) :
    0 ≤ s.best_score ∧
    (∀ c ∈ order, candScore md ps c ≤ s.best_score) ∧
    (0 < s.best_score →
      ∃ i c, order.get? i = some c ∧ s.best_topic = some c.1 ∧ s.best_idx = some c.2 ∧
        candScore md ps c = s.best_score ∧
        ∀ j d, j < i → order.get? j = some d → candScore md ps d < s.best_score) ∧
    (s.best_score = 0 → s.best_topic = none ∧ s.best_idx = none) := by
  rw [select_best, select_best_total md ps order hall initSel] at hsel
  have hs : order.foldl (selStepT md ps) initSel = s := Option.some.inj hsel
  obtain ⟨ha, hb, hc⟩ := selfold_spec md ps order initSel
  rw [hs] at ha hb hc
  refine ⟨ha, hb, ?_, ?_⟩
  · intro hpos
    rcases hc with heq | ⟨i, c, hget, hres, _, hprev⟩
    · rw [heq] at hpos
      exact absurd hpos (lt_irrefl 0)
    · refine ⟨i, c, hget, by rw [hres], by rw [hres], by rw [hres], ?_⟩
      intro j d hj hg
      have hlt2 := hprev j d hj hg
      rw [hres]
      exact hlt2
  · intro hz
    rcases hc with heq | ⟨i, c, hget, hres, hlt, hprev⟩
    · rw [heq]
      exact ⟨rfl, rfl⟩
    · exfalso
      have hbs : s.best_score = candScore md ps c := by rw [hres]
      have h0c : candScore md ps c = 0 := by rw [← hbs]; exact hz
      have hcontra : (0 : ℚ) < 0 := by
        have h2 : initSel.best_score < candScore md ps c := hlt
        rw [h0c] at h2
        exact h2
      exact absurd hcontra (lt_irrefl 0)

/-! Claim C8: selection is first-maximum for a fixed iteration order. -/

/-- C8 (status: corrected): for a fixed index/metadata pair, a fixed prompt
AND a fixed iteration order of the candidate set, the loop keeps the candidate
with the strictly highest score, ties going to the first-encountered
candidate: the winner maximizes the score over the candidates and every
earlier candidate in the order scores strictly less.  The claim's further
assertion that the kept candidate is "the same one on every run" fails,
because the iteration order of the Python set `candidate_refs` is not fixed
across process runs (string hashing is randomized); the counterexample
exhibits two valid enumerations of the same candidate set that make `chat`
answer from different topics. -/
theorem selection_first_max (lem : String → List String) (db : DB) (ii : Index)
    (md : Metadata) (lemm_tokens : List String) (order : List Ident) (s : Sel)
    (hload : load_faqs_from_db lem db = some (ii, md))
    (horder : List.Perm order (candidate_refs ii lemm_tokens))
    (hsel : select_best md lemm_tokens.toFinset order = some s) :
    (∀ c ∈ order, candScore md lemm_tokens.toFinset c ≤ s.best_score) ∧
    (0 < s.best_score →
      ∃ i c, order.get? i = some c ∧ s.best_topic = some c.1 ∧ s.best_idx = some c.2 ∧
        candScore md lemm_tokens.toFinset c = s.best_score ∧
        ∀ j d, j < i → order.get? j = some d →
          candScore md lemm_tokens.toFinset d < s.best_score) ∧
    (s.best_score = 0 → s.best_topic = none ∧ s.best_idx = none) := by
  have hinv := load_inv lem db ii md hload
  have hall : ∀ c ∈ order, ¬ mdLookup md c = none := by
    intro c hc
    obtain ⟨t, _, hb⟩ := (mem_candidate_refs ii lemm_tokens c).mp (horder.mem_iff.mp hc)
    exact hinv.bucket_md t c hb
  obtain ⟨_, h1, h2, h3⟩ := select_best_spec md lemm_tokens.toFinset order s hall hsel
  exact ⟨h1, h2, h3⟩

/-! Claims C2 and C10: acceptance behavior of the chat route. -/

/-- Unfolding equation of `chat`. -/
theorem chat_eq (lem : String → List String) (ii : Index) (md : Metadata)
    (prompt : String) (order : List Ident) :
    chat lem ii md prompt order =
      match select_best md (lem prompt).toFinset order with
      | none => none
      | some s =>
        if threshold ≤ s.best_score ∧ truthyStr s.best_topic = true then
          match s.best_topic, s.best_idx with
          | some best_topic, some best_idx =>
            match mdLookup md (best_topic, best_idx) with
            | some ref => some ⟨ref.answer, round3 s.best_score, lem prompt⟩
            | none => none
          | _, _ => none
        else some ⟨fallbackReply, 0, lem prompt⟩ := rfl

/-- C2 (status: corrected): with the set-overlap mode active, `chat` returns
the selected best candidate's stored answer iff the best score is at least the
0.6 threshold AND the winning topic name is truthy (non-empty); a best score
of exactly 0.6 with a non-empty topic name is accepted (see the witness), and
whenever the condition fails — in particular whenever the best score is below
0.6 — the fixed fallback reply with probability 0.0 is returned.  The claim's
unqualified "iff score ≥ 0.6" is refuted by the empty-topic-name
counterexample. -/
theorem chat_accept_iff (lem : String → List String) (ii : Index) (md : Metadata)
    (prompt : String) (order : List Ident) (s : Sel)
    (hsel : select_best md (lem prompt).toFinset order = some s) :
    (∀ bt bi r, s.best_topic = some bt → s.best_idx = some bi →
      mdLookup md (bt, bi) = some r → threshold ≤ s.best_score → ¬ bt = "" →
      chat lem ii md prompt order = some ⟨r.answer, round3 s.best_score, lem prompt⟩) ∧
    (¬ (threshold ≤ s.best_score ∧ truthyStr s.best_topic = true) →
      chat lem ii md prompt order = some ⟨fallbackReply, 0, lem prompt⟩) := by
  constructor
  · intro bt bi r hbt hbi hr hth hne
    have htr : truthyStr s.best_topic = true := by
      rw [hbt]
      simp only [truthyStr, bne_iff_ne, ne_eq]
      exact hne
    rw [chat_eq, hsel]
    dsimp only
    rw [if_pos ⟨hth, htr⟩, hbt, hbi]
    dsimp only
    rw [hr]
  · intro hncond
    rw [chat_eq, hsel]
    dsimp only
    rw [if_neg hncond]

/-- C10 (status: confirmed): acceptance additionally requires the winning
topic name to be truthy.  If the selected best candidate's topic name is the
empty string, `chat` returns the fixed fallback response regardless of the
score (the hypothesis places no bound on `s.best_score`), so an empty-named
topic's answer is never returned. -/
theorem empty_topic_name_never_answers (lem : String → List String) (ii : Index)
    (md : Metadata) (prompt : String) (order : List Ident) (s : Sel)
    (hsel : select_best md (lem prompt).toFinset order = some s)
    (htopic : s.best_topic = some "") :
    chat lem ii md prompt order = some ⟨fallbackReply, 0, lem prompt⟩ := by
  have hfalse : ¬ (threshold ≤ s.best_score ∧ truthyStr s.best_topic = true) := by
    rintro ⟨_, htr⟩
    rw [htopic] at htr
    simp [truthyStr] at htr
  rw [chat_eq, hsel]
  dsimp only
  rw [if_neg hfalse]

/-! Claim C6: validation of ingest requests. -/

/-- C6 (status: confirmed): a `/add_faq` request with a missing answer is
rejected by the key check with the 400 response; a request with an empty
topic name passes the key check but fails inside `add_or_update_topic` (whose
reference-table SQL is invalid), whose exception escapes as an error response
with the transaction rolled back.  Either way the caller gets an error, no
success is reported, and the committed database is unchanged. -/
theorem malformed_ingest_rejected (db : DB) (data : AddFaqRequest)
    (h : data.answer = none ∨ data.topic = some "") :
    (add_faq db data).1 = db ∧
      ∀ m, ¬ (add_faq db data).2 = AddFaqResult.success m := by
  rcases data with ⟨topic, answer, references⟩
  rcases h with h | h
  · subst h
    simp [add_faq]
  · subst h
    cases answer with
    | none => simp [add_faq]
    | some a =>
      cases references with
      | none => simp [add_faq]
      | some rs => simp [add_faq, add_or_update_topic]

/-! Claim C7: the build is deterministic on unchanged data. -/

theorem foldl_rel {α β : Type} (R : α → α → Prop) (f g : α → β → α)
    (h : ∀ a1 a2 b, R a1 a2 → R (f a1 b) (g a2 b)) :
    ∀ (l : List β) (a1 a2 : α), R a1 a2 → R (l.foldl f a1) (l.foldl g a2) := by
  intro l
  induction l with
  | nil => intro a1 a2 hr; simpa using hr
  | cons b l ih =>
    intro a1 a2 hr
    rw [List.foldl_cons, List.foldl_cons]
    exact ih _ _ (h a1 a2 b hr)

theorem processRef_rel (lem : String → List String)
    (s1 s2 : List String → List String)
    (h1 : ∀ l : List String, List.Perm (s1 l) l.dedup)
    (h2 : ∀ l : List String, List.Perm (s2 l) l.dedup)
    (tn ans : String) (st1 st2 : Index × Metadata) (p : Nat × String)
    (hr : IMRel st1 st2) :
    IMRel (processRef lem s1 tn ans st1 p) (processRef lem s2 tn ans st2 p) := by
  obtain ⟨hmd, hbk⟩ := hr
  constructor
  · simp only [processRef_eq]
    rw [hmd]
  · intro t
    simp only [processRef_eq]
    rw [bucket_foldl_eq (tn, p.1) t (s1 (lem p.2))
          ((h1 (lem p.2)).symm.nodup (List.nodup_dedup _)) st1.1,
        bucket_foldl_eq (tn, p.1) t (s2 (lem p.2))
          ((h2 (lem p.2)).symm.nodup (List.nodup_dedup _)) st2.1,
        hbk t]
    by_cases hm : t ∈ (lem p.2).dedup
    · rw [if_pos ((h1 (lem p.2)).mem_iff.mpr hm),
        if_pos ((h2 (lem p.2)).mem_iff.mpr hm)]
    · rw [if_neg fun hc => hm ((h1 (lem p.2)).mem_iff.mp hc),
        if_neg fun hc => hm ((h2 (lem p.2)).mem_iff.mp hc)]

theorem buildIndexE_rel (lem : String → List String)
    (s1 s2 : List String → List String)
    (h1 : ∀ l : List String, List.Perm (s1 l) l.dedup)
    (h2 : ∀ l : List String, List.Perm (s2 l) l.dedup) (faqs : Faqs) :
    IMRel (buildIndexE lem s1 faqs) (buildIndexE lem s2 faqs) := by
  unfold buildIndexE
  refine foldl_rel IMRel _ _ ?_ faqs ([], []) ([], []) ⟨rfl, fun t => rfl⟩
  intro a1 a2 e hra
  exact foldl_rel IMRel _ _
    (fun b1 b2 p hb => processRef_rel lem s1 s2 h1 h2 e.1 e.2.1 b1 b2 p hb)
    e.2.2.enum a1 a2 hra

/-- C7 (status: confirmed): rebuilding the index on unchanged data is
deterministic and idempotent.  `load_faqs_from_db` executes only `SELECT`
statements, so the database rows are unchanged by a run (the embedding is a
pure function of the rows), and any two runs — even with different iteration
orders of each reference's lemma set, the one order Python leaves to the
runtime — produce equal metadata tables and pointwise equal inverted-index
buckets. -/
theorem load_faqs_deterministic (lem : String → List String)
    (s1 s2 : List String → List String) (db : DB)
    (h1 : ∀ l : List String, List.Perm (s1 l) l.dedup)
    (h2 : ∀ l : List String, List.Perm (s2 l) l.dedup) :
    (load_faqs_from_dbE lem s1 db).map Prod.snd =
      (load_faqs_from_dbE lem s2 db).map Prod.snd ∧
    ∀ t, (load_faqs_from_dbE lem s1 db).map (fun p => bucket p.1 t) =
      (load_faqs_from_dbE lem s2 db).map (fun p => bucket p.1 t) := by
  unfold load_faqs_from_dbE
  cases hcase : loadRefRows db
      (db.topics.foldl (fun acc t => faqsInsert acc t.topic_name t.answer) []) with
  | none => exact ⟨rfl, fun t => rfl⟩
  | some faqs =>
    have hrel := buildIndexE_rel lem s1 s2 h1 h2 faqs
    constructor
    · simp only [Option.map_some']
      rw [hrel.1]
    · intro t
      simp only [Option.map_some']
      rw [hrel.2 t]

/-! Evaluation helpers for the concrete scenarios.  The rational arithmetic
primitives are deliberately not unfolded by reduction, so the score values are
computed through `norm_num` while everything rational-free is decided. -/

theorem threshold_eq : threshold = 3 / 5 := by
  simp only [threshold, use_jaccard]
  norm_num

theorem jaccard_eval (A B : Finset String) (i u : ℕ) (hi : (A ∩ B).card = i)
    (hu : (A ∪ B).card = u) (hun : u ≠ 0) :
    jaccard_similarity A B = (i : ℚ) / (u : ℚ) := by
  simp only [jaccard_similarity, hi, hu]
  rw [if_pos hun]

theorem candScore_eval (md : Metadata) (ps : Finset String) (c : Ident)
    (ref : RefMeta) (hm : mdLookup md c = some ref) :
    candScore md ps c = jaccard_similarity ps ref.set := by
  simp [candScore, hm, use_jaccard]

theorem selStepT_init_eval (md : Metadata) (ps : Finset String) (c : Ident) (q : ℚ)
    (hq : candScore md ps c = q) (hpos : 0 < q) :
    selStepT md ps initSel c = ⟨some c.1, some c.2, q⟩ := by
  simp only [selStepT, hq]
  rw [if_pos (show q > initSel.best_score from hpos)]

theorem selStepT_stay (md : Metadata) (ps : Finset String) (s : Sel) (c : Ident)
    (hle : candScore md ps c ≤ s.best_score) : selStepT md ps s c = s := by
  unfold selStepT
  rw [if_neg (not_lt.mpr hle)]

theorem mdLookupEmptyName :
    mdLookup mdEmptyName ("", 0) =
      some ⟨"a b", List.toFinset ["a", "b"], "THE-ANSWER"⟩ := by decide

theorem candScoreEmptyName :
    candScore mdEmptyName (List.toFinset (testLemma "a b")) ("", 0) = 1 := by
  rw [candScore_eval _ _ _ _ mdLookupEmptyName,
    jaccard_eval _ _ 2 2 (by decide) (by decide) (by decide)]
  norm_num

theorem selEmptyName :
    select_best mdEmptyName (List.toFinset (testLemma "a b")) orderEmptyName =
      some ⟨some "", some 0, 1⟩ := by
  have hall : ∀ c ∈ orderEmptyName, ¬ mdLookup mdEmptyName c = none := by decide
  rw [select_best, select_best_total _ _ orderEmptyName hall initSel]
  congr 1
  show selStepT mdEmptyName (List.toFinset (testLemma "a b")) initSel ("", 0) = _
  exact selStepT_init_eval _ _ _ 1 candScoreEmptyName one_pos

theorem chatEmptyName :
    chat testLemma iiEmptyName mdEmptyName "a b" orderEmptyName =
      some ⟨fallbackReply, 0, ["a", "b"]⟩ := by
  have hfalse : ¬ (threshold ≤ (1 : ℚ) ∧ truthyStr (some "") = true) := by
    rintro ⟨_, htr⟩
    simp [truthyStr] at htr
  rw [chat_eq, selEmptyName]
  dsimp only
  rw [if_neg hfalse]
  rfl

theorem mdLookupTie1 :
    mdLookup mdTie ("t1", 0) =
      some ⟨"a b", List.toFinset ["a", "b"], "ANS-1"⟩ := by decide

theorem mdLookupTie2 :
    mdLookup mdTie ("t2", 0) =
      some ⟨"b a", List.toFinset ["b", "a"], "ANS-2"⟩ := by decide

theorem candScoreTie1 :
    candScore mdTie (List.toFinset (testLemma "a b")) ("t1", 0) = 1 := by
  rw [candScore_eval _ _ _ _ mdLookupTie1,
    jaccard_eval _ _ 2 2 (by decide) (by decide) (by decide)]
  norm_num

theorem candScoreTie2 :
    candScore mdTie (List.toFinset (testLemma "a b")) ("t2", 0) = 1 := by
  rw [candScore_eval _ _ _ _ mdLookupTie2,
    jaccard_eval _ _ 2 2 (by decide) (by decide) (by decide)]
  norm_num

theorem selTie1 :
    select_best mdTie (List.toFinset (testLemma "a b")) orderTie1 =
      some ⟨some "t1", some 0, 1⟩ := by
  have hall : ∀ c ∈ orderTie1, ¬ mdLookup mdTie c = none := by decide
  rw [select_best, select_best_total _ _ orderTie1 hall initSel]
  congr 1
  show selStepT mdTie (List.toFinset (testLemma "a b"))
    (selStepT mdTie (List.toFinset (testLemma "a b")) initSel ("t1", 0)) ("t2", 0) = _
  rw [selStepT_init_eval _ _ _ 1 candScoreTie1 one_pos]
  exact selStepT_stay _ _ _ _ (le_of_eq candScoreTie2)

theorem selTie2 :
    select_best mdTie (List.toFinset (testLemma "a b")) orderTie2 =
      some ⟨some "t2", some 0, 1⟩ := by
  have hall : ∀ c ∈ orderTie2, ¬ mdLookup mdTie c = none := by decide
  rw [select_best, select_best_total _ _ orderTie2 hall initSel]
  congr 1
  show selStepT mdTie (List.toFinset (testLemma "a b"))
    (selStepT mdTie (List.toFinset (testLemma "a b")) initSel ("t2", 0)) ("t1", 0) = _
  rw [selStepT_init_eval _ _ _ 1 candScoreTie2 one_pos]
  exact selStepT_stay _ _ _ _ (le_of_eq candScoreTie1)

theorem chatTie1 :
    chat testLemma iiTie mdTie "a b" orderTie1 =
      some ⟨"ANS-1", round3 1, ["a", "b"]⟩ := by
  have hth : threshold ≤ (1 : ℚ) := by rw [threshold_eq]; norm_num
  have htr : truthyStr (some "t1") = true := rfl
  rw [chat_eq, selTie1]
  dsimp only
  rw [if_pos (And.intro hth htr), mdLookupTie1]
  rfl

theorem chatTie2 :
    chat testLemma iiTie mdTie "a b" orderTie2 =
      some ⟨"ANS-2", round3 1, ["a", "b"]⟩ := by
  have hth : threshold ≤ (1 : ℚ) := by rw [threshold_eq]; norm_num
  have htr : truthyStr (some "t2") = true := rfl
  rw [chat_eq, selTie2]
  dsimp only
  rw [if_pos (And.intro hth htr), mdLookupTie2]
  rfl

theorem mdLookupBoundary :
    mdLookup mdBoundary ("t", 0) =
      some ⟨"a b c e", List.toFinset ["a", "b", "c", "e"], "ANS-B"⟩ := by decide

theorem candScoreBoundary :
    candScore mdBoundary (List.toFinset (testLemma "a b c d")) ("t", 0) = 3 / 5 := by
  rw [candScore_eval _ _ _ _ mdLookupBoundary,
    jaccard_eval _ _ 3 5 (by decide) (by decide) (by decide)]
  norm_num

theorem selBoundary :
    select_best mdBoundary (List.toFinset (testLemma "a b c d")) orderBoundary =
      some ⟨some "t", some 0, 3 / 5⟩ := by
  have hall : ∀ c ∈ orderBoundary, ¬ mdLookup mdBoundary c = none := by decide
  rw [select_best, select_best_total _ _ orderBoundary hall initSel]
  congr 1
  show selStepT mdBoundary (List.toFinset (testLemma "a b c d")) initSel ("t", 0) = _
  exact selStepT_init_eval _ _ _ (3 / 5) candScoreBoundary (by norm_num)

theorem jaccardC5 :
    jaccard_similarity (List.toFinset (testLemma "a c")) (List.toFinset ["a", "b"]) =
      1 / 3 := by
  rw [jaccard_eval _ _ 1 3 (by decide) (by decide) (by decide)]
  norm_num

/-! Concrete counterexamples and witnesses. -/

/-- C2 counterexample: in the `dbEmptyName` state the (unique, hence best)
candidate scores 1 ≥ 0.6, yet `chat` returns the fixed fallback because the
winning topic name is the empty string — refuting the claim's unqualified
"answer iff best score ≥ 0.6". -/
theorem chat_accept_iff_cex :
    load_faqs_from_db testLemma dbEmptyName = some (iiEmptyName, mdEmptyName) ∧
    select_best mdEmptyName (List.toFinset (testLemma "a b")) orderEmptyName =
      some ⟨some "", some 0, 1⟩ ∧
    threshold ≤ (1 : ℚ) ∧
    List.Perm orderEmptyName (candidate_refs iiEmptyName (testLemma "a b")) ∧
    chat testLemma iiEmptyName mdEmptyName "a b" orderEmptyName =
      some ⟨fallbackReply, 0, ["a", "b"]⟩ :=
  ⟨by decide, selEmptyName, by rw [threshold_eq]; norm_num, by decide, chatEmptyName⟩

/-- C2 witness: the amended theorem applied at the `dbBoundary` state, where
the best candidate scores exactly 3/5 = 0.6 and is accepted. -/
theorem chat_accept_iff_witness :
    threshold ≤ (3 / 5 : ℚ) ∧
    chat testLemma iiBoundary mdBoundary "a b c d" orderBoundary =
      some ⟨"ANS-B", round3 (3 / 5), testLemma "a b c d"⟩ :=
  ⟨by rw [threshold_eq],
   (chat_accept_iff testLemma iiBoundary mdBoundary "a b c d" orderBoundary
      ⟨some "t", some 0, 3 / 5⟩ selBoundary).1 "t" 0
      ⟨"a b c e", List.toFinset ["a", "b", "c", "e"], "ANS-B"⟩
      rfl rfl mdLookupBoundary (by rw [threshold_eq]) (by decide)⟩

/-- C4 counterexample: in the `dbEmptyRef` state the reference `""`
lemmatizes to no tokens; its identifier receives a metadata entry while the
inverted index stays empty, so the identifier appears in no bucket — refuting
the unqualified metadata-to-index direction of the claim. -/
theorem index_metadata_consistency_cex :
    load_faqs_from_db testLemma dbEmptyRef =
      some ([], [(("t", 0), ⟨"", ∅, "ANS-T"⟩)]) ∧
    mdLookup [(("t", 0), (⟨"", ∅, "ANS-T"⟩ : RefMeta))] ("t", 0) =
      some ⟨"", ∅, "ANS-T"⟩ ∧
    appearsInIndex ([] : Index) ("t", 0) = false := by
  refine ⟨?_, ?_, ?_⟩ <;> decide

/-- C4 witness: the amended theorem applied at the `dbTie` state. -/
theorem index_metadata_consistency_witness :
    appearsInIndex iiTie ("t1", 0) = true ∧
    (mdKeys mdTie).countP (fun x => decide (x = ("t1", 0))) = 1 :=
  ⟨by decide,
   (index_metadata_consistency testLemma dbTie iiTie mdTie (by decide)).1
     ("t1", 0) (by decide)⟩

/-- C5 witness: at the `dbTie` state the reference of topic `t1` scores
1/3 > 0 against the prompt `"a c"` and is indeed among the candidates. -/
theorem candidate_narrowing_sound_witness :
    0 < jaccard_similarity (List.toFinset (testLemma "a c")) (List.toFinset ["a", "b"]) ∧
    ("t1", 0) ∈ candidate_refs iiTie (testLemma "a c") :=
  ⟨by rw [jaccardC5]; norm_num,
   candidate_narrowing_sound testLemma dbTie iiTie mdTie (testLemma "a c") ("t1", 0)
     ⟨"a b", List.toFinset ["a", "b"], "ANS-1"⟩ (by decide) (by decide)
     (by rw [jaccardC5]; norm_num)⟩

/-- C6 witness: the theorem applied to the empty-topic-name request on the
empty database. -/
theorem malformed_ingest_rejected_witness :
    (add_faq emptyDB reqEmptyTopic).1 = emptyDB ∧
    ¬ (add_faq emptyDB reqEmptyTopic).2 =
      AddFaqResult.success "FAQ added/updated successfully" :=
  ⟨(malformed_ingest_rejected emptyDB reqEmptyTopic (Or.inr rfl)).1,
   (malformed_ingest_rejected emptyDB reqEmptyTopic (Or.inr rfl)).2
     "FAQ added/updated successfully"⟩

/-- C7 witness: two different set-iteration orders at the `dbTie` state give
the same metadata table and the same bucket for the lemma `"a"`. -/
theorem load_faqs_deterministic_witness :
    (load_faqs_from_dbE testLemma (fun l => l.dedup) dbTie).map Prod.snd =
      (load_faqs_from_dbE testLemma (fun l => List.reverse l.dedup) dbTie).map Prod.snd ∧
    (load_faqs_from_dbE testLemma (fun l => l.dedup) dbTie).map (fun p => bucket p.1 "a") =
      (load_faqs_from_dbE testLemma (fun l => List.reverse l.dedup) dbTie).map
        (fun p => bucket p.1 "a") :=
  ⟨(load_faqs_deterministic testLemma (fun l => l.dedup) (fun l => List.reverse l.dedup)
      dbTie (fun l => List.Perm.refl l.dedup) (fun l => List.reverse_perm l.dedup)).1,
   (load_faqs_deterministic testLemma (fun l => l.dedup) (fun l => List.reverse l.dedup)
      dbTie (fun l => List.Perm.refl l.dedup) (fun l => List.reverse_perm l.dedup)).2 "a"⟩

/-- C8 counterexample: two enumerations of the same candidate set (both
permutations of `candidate_refs`, as a Python set admits) make `chat` answer
from different topics for the same prompt and the same index/metadata pair,
refuting "the same one on every run". -/
theorem selection_first_max_cex :
    load_faqs_from_db testLemma dbTie = some (iiTie, mdTie) ∧
    List.Perm orderTie1 (candidate_refs iiTie (testLemma "a b")) ∧
    List.Perm orderTie2 (candidate_refs iiTie (testLemma "a b")) ∧
    chat testLemma iiTie mdTie "a b" orderTie1 =
      some ⟨"ANS-1", round3 1, ["a", "b"]⟩ ∧
    chat testLemma iiTie mdTie "a b" orderTie2 =
      some ⟨"ANS-2", round3 1, ["a", "b"]⟩ :=
  ⟨by decide, by decide, by decide, chatTie1, chatTie2⟩

/-- C8 witness: the amended theorem applied at the `dbTie` state with the
first enumeration. -/
theorem selection_first_max_witness :
    candScore mdTie (List.toFinset (testLemma "a b")) ("t2", 0) ≤ 1 :=
  (selection_first_max testLemma dbTie iiTie mdTie (testLemma "a b") orderTie1
    ⟨some "t1", some 0, 1⟩ (by decide) (by decide) selTie1).1 ("t2", 0) (by decide)

/-- C10 witness: the theorem applied at the `dbEmptyName` state, where the
best candidate scores 1 but its topic name is the empty string. -/
theorem empty_topic_name_never_answers_witness :
    chat testLemma iiEmptyName mdEmptyName "a b" orderEmptyName =
      some ⟨fallbackReply, 0, testLemma "a b"⟩ :=
  empty_topic_name_never_answers testLemma iiEmptyName mdEmptyName "a b" orderEmptyName
    ⟨some "", some 0, 1⟩ selEmptyName rfl

end Chatbot
